import Mathlib

/-!
Verification of the butler drinking-tracker engine (`src/butler/storage.py`).

Calendar dates are modelled as integers counting days, with the epoch chosen
on a Monday, so that Python's `date.weekday()` (Monday = 0 .. Sunday = 6)
becomes `d % 7` (Euclidean remainder) and `date + timedelta(days = k)`
becomes `d + k`.
-/

/-- Mirror of the `Entry` dataclass: a calendar day, an optional
drink count (`none` means unknown/absent) and a free-text note. -/
structure Entry where
  day : Int
  count : Option Nat
  note : String := ""
deriving DecidableEq, Repr

/-- Python's `(e.count or 0)`: the effective count, absent read as 0. -/
def effCount (e : Entry) : Nat := e.count.getD 0

/-- `find_entry`: first entry (in list order) with the given day. -/
def find_entry (entries : List Entry) (day : Int) : Option Entry :=
  entries.find? (fun e => e.day == day)

/-- Python `date.weekday()` in the integer-day model: Monday = 0 .. Sunday = 6. -/
def weekday (d : Int) : Int := d % 7

/-- Embedding of `week_bounds`: `monday = anchor - anchor.weekday()`, `sunday = monday + 6`. -/
def week_bounds (anchor : Int) : Int × Int :=
  (anchor - weekday anchor, anchor - weekday anchor + 6)

/-- Lookup in the Python dict `{e.day: e for e in entries}`: the LAST entry
with the given day wins, hence `find?` on the reversed list. -/
def dict_get (entries : List Entry) (d : Int) : Option Entry :=
  entries.reverse.find? (fun e => e.day == d)

/-- Helper `has_drinks` of `check_gap_rule`: the day has an entry
whose effective count is positive. -/
def has_drinks (entries : List Entry) (d : Int) : Bool :=
  match dict_get entries d with
  | some e => decide (0 < effCount e)
  | none => false

/-- Number of iterations of the `while current_day <= week_end` loop. -/
def week_days (week_start week_end : Int) : Nat :=
  (week_end - week_start + 1).toNat

/-- Embedding of `check_gap_rule`: cross-week Monday/previous-Sunday check, then a scan
for two consecutive drinking days inside `[week_start, week_end]`. -/
def check_gap_rule (entries : List Entry) (week_start week_end : Int) : Bool :=
  if has_drinks entries week_start && has_drinks entries (week_start - 1) then
    false
  else if (List.range (week_days week_start week_end)).any (fun i =>
      has_drinks entries (week_start + i) &&
        (decide (week_start + (i : Int) + 1 ≤ week_end) &&
          has_drinks entries (week_start + i + 1))) then
    false
  else
    true

/-- Insertion into a Python dict modelled as an association list: an existing
key is overwritten in place, a new key is appended at the end. -/
def dict_insert (m : List (Int × Entry)) (k : Int) (v : Entry) : List (Int × Entry) :=
  if m.any (fun p => p.1 == k) then
    m.map (fun p => if p.1 == k then (k, v) else p)
  else
    m ++ [(k, v)]

/-- The dict comprehension `{e.day: e for e in subset}`. -/
def dict_of (l : List Entry) : List (Int × Entry) :=
  l.foldl (fun m e => dict_insert m e.day e) []

/-- The dictionary returned by `summarize_week`, as a structure. -/
structure WeekSummary where
  start : Int
  end_ : Int
  days_map : List (Int × Entry)
  drinking_days : Nat
  total_drinks : Nat
  recorded_days : Nat
  abstinent_days : Nat
  rule_ok : Bool
  rule_days_ok : Bool
  rule_per_day_ok : Bool
  rule_gap_ok : Bool
deriving DecidableEq, Repr

/-- The in-week filter `start <= e.day <= end`. -/
def in_week (start end_ : Int) (e : Entry) : Bool :=
  decide (start ≤ e.day) && decide (e.day ≤ end_)

/-- Embedding of `summarize_week`: per-week aggregates plus the three rule verdicts. -/
def summarize_week (entries : List Entry) (anchor : Int) : WeekSummary :=
  let start := (week_bounds anchor).1
  let end_ := (week_bounds anchor).2
  let subset := entries.filter (in_week start end_)
  let drinking_days := subset.countP (fun e => decide (0 < effCount e))
  let total_drinks := (subset.map effCount).sum
  let recorded_days := subset.countP (fun e => e.count.isSome)
  let abstinent_days := subset.countP (fun e => e.count == some 0)
  let rule_days_ok := decide (drinking_days ≤ 3)
  let rule_per_day_ok := subset.all (fun e => decide (effCount e ≤ 3))
  let rule_gap_ok := check_gap_rule entries start end_
  { start := start
    end_ := end_
    days_map := dict_of subset
    drinking_days := drinking_days
    total_drinks := total_drinks
    recorded_days := recorded_days
    abstinent_days := abstinent_days
    rule_ok := rule_days_ok && rule_per_day_ok && rule_gap_ok
    rule_days_ok := rule_days_ok
    rule_per_day_ok := rule_per_day_ok
    rule_gap_ok := rule_gap_ok }

/-- The backward walk of the current-abstinence block: starting at day `d`
with `n` days of lookback left, stop at the first day recorded with a
positive count, add one for each day recorded as exactly 0, and pass over
days with no entry or an absent count. -/
def count_back (entries : List Entry) : Nat → Int → Nat
  | 0, _ => 0
  | n + 1, d =>
    match find_entry entries d with
    | some e =>
      match e.count with
      | some c => if 0 < c then 0 else 1 + count_back entries n (d - 1)
      | none => count_back entries n (d - 1)
    | none => count_back entries n (d - 1)

/-- The `current_abstinence` block of `calculate_streaks`: 0 if today is
recorded with a positive count, otherwise the backward walk from yesterday
over at most 365 days. -/
def current_abstinence (entries : List Entry) (today : Int) : Nat :=
  match find_entry entries today with
  | some e =>
    match e.count with
    | some c => if 0 < c then 0 else count_back entries 365 (today - 1)
    | none => count_back entries 365 (today - 1)
  | none => count_back entries 365 (today - 1)

/-- The data-gap reset of the `longest_abstinence` scan: the running streak
is zeroed when the current record's day is more than one day after the
previous record's day. -/
def gap_reset (last : Option Int) (d : Int) (temp : Nat) : Nat :=
  match last with
  | some ld => if 1 < d - ld then 0 else temp
  | none => temp

/-- The `longest_abstinence` scan: `last` is `last_date`, `temp` the running
streak (reset on a data gap or on a positive count), `longest` the maximum
so far. -/
def longest_loop (l : List Entry) (last : Option Int) (temp longest : Nat) : Nat :=
  match l with
  | [] => longest
  | e :: rest =>
    let t0 := gap_reset last e.day temp
    if effCount e = 0 then
      longest_loop rest (some e.day) (t0 + 1) (max longest (t0 + 1))
    else
      longest_loop rest (some e.day) 0 longest

/-- Python `sorted(entries, key=lambda e: e.day)` (stable mergesort). -/
def sort_by_day (entries : List Entry) : List Entry :=
  entries.mergeSort (fun a b => decide (a.day ≤ b.day))

/-- The `longest_abstinence` block of `calculate_streaks`. -/
def longest_abstinence (entries : List Entry) : Nat :=
  longest_loop (sort_by_day entries) none 0 0

/-- The week filter used by the compliance-streak loops:
`recorded_days > 0 and rule_ok`. -/
def week_good (entries : List Entry) (ws : Int) : Bool :=
  let s := summarize_week entries ws
  decide (0 < s.recorded_days) && s.rule_ok

/-- The `for i in range(104)` loop of the current-compliance-weeks block:
count consecutive good weeks walking backward week by week, stopping at the
first bad one. -/
def compliance_count (entries : List Entry) : Nat → Int → Nat
  | 0, _ => 0
  | n + 1, ws =>
    if week_good entries ws then 1 + compliance_count entries n (ws - 7) else 0

/-- The `current_compliance_weeks` block of `calculate_streaks`. -/
def current_compliance_weeks (entries : List Entry) (today : Int) : Nat :=
  let cur := summarize_week entries (today - weekday today)
  if 0 < cur.recorded_days && !cur.rule_ok then 0
  else compliance_count entries 104 (today - weekday today - 7)

/-- Number of iterations of a `while ws <= last: ... ws += 7` loop. -/
def num_weeks (first last : Int) : Nat := ((last - first) / 7 + 1).toNat

/-- The `longest_compliance_weeks` scan over completed weeks. -/
def longest_compliance_loop (entries : List Entry) : Nat → Int → Nat → Nat → Nat
  | 0, _, _, longest => longest
  | n + 1, ws, temp, longest =>
    if week_good entries ws then
      longest_compliance_loop entries n (ws + 7) (temp + 1) (max longest (temp + 1))
    else
      longest_compliance_loop entries n (ws + 7) 0 longest

/-- Python `min(e.day for e in entries)` (0 for the empty list, never used there). -/
def earliest_day (entries : List Entry) : Int :=
  match entries with
  | [] => 0
  | e :: rest => rest.foldl (fun a b => min a b.day) e.day

/-- The `longest_compliance_weeks` block of `calculate_streaks`: scan all
weeks from the earliest record's week up to the last completed week. -/
def longest_compliance_weeks (entries : List Entry) (today : Int) : Nat :=
  let earliest := earliest_day entries
  let week_start := earliest - weekday earliest
  let last_completed := today - (weekday today + 7)
  longest_compliance_loop entries (num_weeks week_start last_completed) week_start 0 0

/-- A day recorded with a count strictly above the per-day limit of 3. -/
def over_limit (entries : List Entry) (d : Int) : Bool :=
  match find_entry entries d with
  | some e =>
    match e.count with
    | some c => decide (3 < c)
    | none => false
  | none => false

/-- The `for i in range(365)` loop of the days-since-over-limit block. -/
def over_limit_loop (entries : List Entry) : Nat → Int → Nat → Option Nat
  | 0, _, _ => none
  | n + 1, d, i =>
    if over_limit entries d then some i else over_limit_loop entries n (d - 1) (i + 1)

/-- The `days_since_over_limit` block of `calculate_streaks`. -/
def days_since_over_limit (entries : List Entry) (today : Int) : Option Nat :=
  over_limit_loop entries 365 today 0

/-- A day carrying an explicit zero count (`entry.count == 0` in Python:
`None == 0` is false, so absent does not qualify). -/
def explicit_zero (entries : List Entry) (d : Int) : Bool :=
  match find_entry entries d with
  | some e => e.count == some 0
  | none => false

/-- The Saturday-stepping loop of the alcohol-free-weekends block. -/
def weekends_loop (entries : List Entry) : Nat → Int → Nat
  | 0, _ => 0
  | n + 1, sat =>
    (if explicit_zero entries sat && explicit_zero entries (sat + 1) then 1 else 0) +
      weekends_loop entries n (sat + 7)

/-- First Saturday scanned: the Saturday of the earliest record's week,
bumped a week forward when it precedes the earliest record. -/
def first_saturday (entries : List Entry) : Int :=
  let earliest := earliest_day entries
  let fs := earliest - weekday earliest + 5
  if fs < earliest then fs + 7 else fs

/-- Number of Saturdays scanned: every 7th day from `first_saturday` while
not after `today`. -/
def num_saturdays (entries : List Entry) (today : Int) : Nat :=
  num_weeks (first_saturday entries) today

/-- The `total_alcohol_free_weekends` block of `calculate_streaks`. -/
def total_alcohol_free_weekends (entries : List Entry) (today : Int) : Nat :=
  if entries.isEmpty then 0
  else weekends_loop entries (num_saturdays entries today) (first_saturday entries)

/-- The perfect-week test: recorded data, zero drinking days, full rule
compliance. -/
def perfect_week (entries : List Entry) (ws : Int) : Bool :=
  let s := summarize_week entries ws
  decide (0 < s.recorded_days) && decide (s.drinking_days = 0) && s.rule_ok

/-- The week-stepping loop of the perfect-weeks block. -/
def perfect_loop (entries : List Entry) : Nat → Int → Nat
  | 0, _ => 0
  | n + 1, ws =>
    (if perfect_week entries ws then 1 else 0) + perfect_loop entries n (ws + 7)

/-- The `perfect_weeks` block of `calculate_streaks`. -/
def perfect_weeks (entries : List Entry) (today : Int) : Nat :=
  if entries.isEmpty then 0
  else
    let earliest := earliest_day entries
    let week_start := earliest - weekday earliest
    let last_completed := today - (weekday today + 7)
    perfect_loop entries (num_weeks week_start last_completed) week_start

/-- The dictionary returned by `calculate_streaks`, as a structure. -/
structure StreakStats where
  current_abstinence : Nat
  longest_abstinence : Nat
  current_compliance_weeks : Nat
  longest_compliance_weeks : Nat
  days_since_over_limit : Option Nat
  total_alcohol_free_weekends : Nat
  perfect_weeks : Nat
deriving DecidableEq, Repr

/-- Embedding of `calculate_streaks`, with `date.today()` made an explicit parameter. -/
def calculate_streaks (entries : List Entry) (today : Int) : StreakStats :=
  if entries.isEmpty then
    { current_abstinence := 0
      longest_abstinence := 0
      current_compliance_weeks := 0
      longest_compliance_weeks := 0
      days_since_over_limit := none
      total_alcohol_free_weekends := 0
      perfect_weeks := 0 }
  else
    { current_abstinence := current_abstinence entries today
      longest_abstinence := longest_abstinence entries
      current_compliance_weeks := current_compliance_weeks entries today
      longest_compliance_weeks := longest_compliance_weeks entries today
      days_since_over_limit := days_since_over_limit entries today
      total_alcohol_free_weekends := total_alcohol_free_weekends entries today
      perfect_weeks := perfect_weeks entries today }

/-- The one-day-extended week window `[monday - 1, sunday]` of an anchor's
week: the full set of days whose records `summarize_week` can consult,
including the cross-week gap check's previous Sunday. -/
def window_filter (anchor : Int) (e : Entry) : Bool :=
  decide ((week_bounds anchor).1 - 1 ≤ e.day) && decide (e.day ≤ (week_bounds anchor).2)

/-- C5: `week_bounds` returns a Monday-to-Sunday pair bracketing the anchor:
the first component falls on a Monday (weekday 0), the second is exactly six
days later, and the anchor lies between them. -/
theorem week_bounds_spec (d : Int) :
    weekday (week_bounds d).1 = 0 ∧
    (week_bounds d).2 = (week_bounds d).1 + 6 ∧
    (week_bounds d).1 ≤ d ∧ d ≤ (week_bounds d).2 := by
  have h0 : (0 : Int) ≤ d % 7 := Int.emod_nonneg d (by decide)
  have h7 : d % 7 < 7 := Int.emod_lt_of_pos d (by decide)
  refine ⟨?_, rfl, by simp [week_bounds, weekday]; omega, by simp [week_bounds, weekday]; omega⟩
  have : (d - d % 7) % 7 = 0 := by
    have := Int.emod_emod_of_dvd d (dvd_refl (7 : Int))
    omega
  simpa [week_bounds, weekday] using this

/-- C1: if the week's Monday has a positive effective count and so does the
Sunday immediately before it (outside the week), the gap rule verdict of the
week summary is `false`. -/
theorem gap_rule_cross_week (entries : List Entry) (anchor : Int)
    (h1 : has_drinks entries (week_bounds anchor).1 = true)
    (h2 : has_drinks entries ((week_bounds anchor).1 - 1) = true) :
    (summarize_week entries anchor).rule_gap_ok = false := by
  simp only [summarize_week, check_gap_rule, h1, h2, Bool.and_self, if_true]

/-- Witness for C1 at a concrete input: Sunday (day -1) and Monday (day 0)
both have one drink; the week of day 3 violates the gap rule. -/
theorem gap_rule_cross_week_witness :
    has_drinks [⟨-1, some 1, ""⟩, ⟨0, some 1, ""⟩] (week_bounds 3).1 = true ∧
    has_drinks [⟨-1, some 1, ""⟩, ⟨0, some 1, ""⟩] ((week_bounds 3).1 - 1) = true ∧
    (summarize_week [⟨-1, some 1, ""⟩, ⟨0, some 1, ""⟩] 3).rule_gap_ok = false :=
  ⟨by decide, by decide,
    gap_rule_cross_week [⟨-1, some 1, ""⟩, ⟨0, some 1, ""⟩] 3 (by decide) (by decide)⟩

/-- Helper: `has_drinks` is false on a day with no entry. -/
theorem has_drinks_eq_false (entries : List Entry) (d : Int)
    (h : ∀ e ∈ entries, e.day ≠ d) : has_drinks entries d = false := by
  unfold has_drinks dict_get
  cases hf : entries.reverse.find? (fun e => e.day == d) with
  | none => rfl
  | some e =>
    exfalso
    have hm : e ∈ entries := by
      have := List.mem_of_find?_eq_some hf
      simpa using this
    have hp : e.day = d := by
      have := List.find?_some hf
      simpa using this
    exact h e hm hp

/-- C2 counterexample: with records day 7 count 0 and day 9 count 0 and
today = 10, the current abstinence streak is 2 (days 9 and 7, skipping the
unrecorded day 8) but the longest streak is 1 (the scan resets on the
two-day record gap), refuting longest >= current. -/
theorem streak_monotonicity_cex :
    (calculate_streaks [⟨7, some 0, ""⟩, ⟨9, some 0, ""⟩] 10).longest_abstinence <
      (calculate_streaks [⟨7, some 0, ""⟩, ⟨9, some 0, ""⟩] 10).current_abstinence := by
  have hs : sort_by_day [⟨7, some 0, ""⟩, ⟨9, some 0, ""⟩] = [⟨7, some 0, ""⟩, ⟨9, some 0, ""⟩] :=
    List.mergeSort_of_sorted (by decide)
  have h2 : (calculate_streaks [⟨7, some 0, ""⟩, ⟨9, some 0, ""⟩] 10).longest_abstinence
      = longest_loop (sort_by_day [⟨7, some 0, ""⟩, ⟨9, some 0, ""⟩]) none 0 0 := rfl
  have h3 : (calculate_streaks [⟨7, some 0, ""⟩, ⟨9, some 0, ""⟩] 10).current_abstinence = 2 := by
    decide
  rw [h2, hs, h3]
  decide

/-- C3: inside a week, an appended record with absent count leaves
drinking days, total drinks and recorded days unchanged, while an appended
record with explicit count 0 increments recorded days and abstinent days
and leaves drinking days unchanged. -/
theorem absent_vs_zero (entries : List Entry) (anchor : Int) (e : Entry)
    (hlo : (week_bounds anchor).1 ≤ e.day) (hhi : e.day ≤ (week_bounds anchor).2) :
    (e.count = none →
      (summarize_week (entries ++ [e]) anchor).drinking_days
          = (summarize_week entries anchor).drinking_days ∧
      (summarize_week (entries ++ [e]) anchor).total_drinks
          = (summarize_week entries anchor).total_drinks ∧
      (summarize_week (entries ++ [e]) anchor).recorded_days
          = (summarize_week entries anchor).recorded_days) ∧
    (e.count = some 0 →
      (summarize_week (entries ++ [e]) anchor).recorded_days
          = (summarize_week entries anchor).recorded_days + 1 ∧
      (summarize_week (entries ++ [e]) anchor).abstinent_days
          = (summarize_week entries anchor).abstinent_days + 1 ∧
      (summarize_week (entries ++ [e]) anchor).drinking_days
          = (summarize_week entries anchor).drinking_days) := by
  constructor
  · intro h
    simp [summarize_week, List.filter_append, in_week, hlo, hhi, h, effCount,
      List.countP_append, List.sum_append]
  · intro h
    simp [summarize_week, List.filter_append, in_week, hlo, hhi, h, effCount,
      List.countP_append, List.sum_append]

/-- Witness for C3 at a concrete input: the week of anchor 3 is days 0..6;
appending day 4 with absent count, then day 4 with count 0, to a history
with one drinking day in week. -/
theorem absent_vs_zero_witness :
    ((week_bounds 3).1 ≤ (4 : Int) ∧ (4 : Int) ≤ (week_bounds 3).2) ∧
    ((summarize_week [⟨2, some 1, ""⟩, ⟨4, none, ""⟩] 3).recorded_days
        = (summarize_week [⟨2, some 1, ""⟩] 3).recorded_days) ∧
    ((summarize_week [⟨2, some 1, ""⟩, ⟨4, some 0, ""⟩] 3).recorded_days
        = (summarize_week [⟨2, some 1, ""⟩] 3).recorded_days + 1) :=
  ⟨⟨by decide, by decide⟩,
    ((absent_vs_zero [⟨2, some 1, ""⟩] 3 ⟨4, none, ""⟩ (by decide) (by decide)).1 rfl).2.2,
    ((absent_vs_zero [⟨2, some 1, ""⟩] 3 ⟨4, some 0, ""⟩ (by decide) (by decide)).2 rfl).1⟩

/-- C8: on an empty record collection the streak computation returns zero
or neutral values for every field, and a week summary has all counts zero
and is rule compliant. -/
theorem empty_history_neutral (today anchor : Int) :
    calculate_streaks [] today =
      { current_abstinence := 0, longest_abstinence := 0, current_compliance_weeks := 0,
        longest_compliance_weeks := 0, days_since_over_limit := none,
        total_alcohol_free_weekends := 0, perfect_weeks := 0 } ∧
    (summarize_week [] anchor).drinking_days = 0 ∧
    (summarize_week [] anchor).total_drinks = 0 ∧
    (summarize_week [] anchor).recorded_days = 0 ∧
    (summarize_week [] anchor).abstinent_days = 0 ∧
    (summarize_week [] anchor).rule_ok = true := by
  have hhd : ∀ d : Int, has_drinks [] d = false := fun _ => rfl
  have hgap : ∀ s e : Int, check_gap_rule [] s e = true := by
    intro s e
    simp [check_gap_rule, hhd]
  refine ⟨rfl, rfl, rfl, rfl, rfl, ?_⟩
  simp [summarize_week, hgap]

/-- C10: a week none of whose days carries any record has all counts zero
and all three rule verdicts true, whatever records exist outside the week. -/
theorem unrecorded_week_compliant (entries : List Entry) (anchor : Int)
    (h : ∀ e ∈ entries, ¬((week_bounds anchor).1 ≤ e.day ∧ e.day ≤ (week_bounds anchor).2)) :
    (summarize_week entries anchor).drinking_days = 0 ∧
    (summarize_week entries anchor).total_drinks = 0 ∧
    (summarize_week entries anchor).recorded_days = 0 ∧
    (summarize_week entries anchor).abstinent_days = 0 ∧
    (summarize_week entries anchor).rule_days_ok = true ∧
    (summarize_week entries anchor).rule_per_day_ok = true ∧
    (summarize_week entries anchor).rule_gap_ok = true ∧
    (summarize_week entries anchor).rule_ok = true := by
  have hfalse : ∀ d : Int, (week_bounds anchor).1 ≤ d → d ≤ (week_bounds anchor).2 →
      has_drinks entries d = false := by
    intro d h1 h2
    refine has_drinks_eq_false entries d ?_
    intro e he hd
    exact h e he ⟨by rw [hd]; exact h1, by rw [hd]; exact h2⟩
  have hws : (week_bounds anchor).2 = (week_bounds anchor).1 + 6 := rfl
  have hsub : entries.filter (in_week (week_bounds anchor).1 (week_bounds anchor).2) = [] := by
    refine List.filter_eq_nil_iff.mpr ?_
    intro e he
    simp only [in_week, Bool.and_eq_true, decide_eq_true_eq, not_and]
    intro h1 h2
    exact h e he ⟨h1, h2⟩
  have hcross : has_drinks entries (week_bounds anchor).1 = false :=
    hfalse _ le_rfl (by rw [hws]; omega)
  have hdays : week_days (week_bounds anchor).1 (week_bounds anchor).2 = 7 := by
    rw [hws]
    unfold week_days
    have h7 : (week_bounds anchor).1 + 6 - (week_bounds anchor).1 + 1 = (7 : Int) := by ring
    rw [h7]
    rfl
  have hany : (List.range (week_days (week_bounds anchor).1 (week_bounds anchor).2)).any
      (fun i => has_drinks entries ((week_bounds anchor).1 + i) &&
        (decide ((week_bounds anchor).1 + (i : Int) + 1 ≤ (week_bounds anchor).2) &&
          has_drinks entries ((week_bounds anchor).1 + i + 1))) = false := by
    rw [hdays]
    refine List.any_eq_false.mpr ?_
    intro i hi
    have hi7 : (i : Int) ≤ 6 := by
      have := List.mem_range.mp hi
      omega
    have hnn : (0 : Int) ≤ (i : Int) := Int.natCast_nonneg i
    have h1 : has_drinks entries ((week_bounds anchor).1 + (i : Int)) = false :=
      hfalse _ (by omega) (by rw [hws]; omega)
    simp [h1]
  have hgap : check_gap_rule entries (week_bounds anchor).1 (week_bounds anchor).2 = true := by
    unfold check_gap_rule
    rw [hcross, hany]
    simp
  refine ⟨?_, ?_, ?_, ?_, ?_, ?_, ?_, ?_⟩ <;>
    simp [summarize_week, hsub, hgap]

/-- Witness for C10 at a concrete input: one heavy drinking record on day
10, week of anchor 3 is days 0..6, so that week is vacuously compliant. -/
theorem unrecorded_week_compliant_witness :
    (∀ e ∈ [Entry.mk 10 (some 5) ""], ¬((week_bounds 3).1 ≤ e.day ∧ e.day ≤ (week_bounds 3).2)) ∧
    (summarize_week [Entry.mk 10 (some 5) ""] 3).recorded_days = 0 ∧
    (summarize_week [Entry.mk 10 (some 5) ""] 3).rule_ok = true :=
  ⟨by decide,
    (unrecorded_week_compliant [Entry.mk 10 (some 5) ""] 3 (by decide)).2.2.1,
    (unrecorded_week_compliant [Entry.mk 10 (some 5) ""] 3 (by decide)).2.2.2.2.2.2.2⟩

/-- Helper: the in-week subset is unchanged by first restricting to the
one-day-extended window. -/
theorem filter_in_week_window (c : List Entry) (s e_ : Int) :
    (c.filter (fun x => decide (s - 1 ≤ x.day) && decide (x.day ≤ e_))).filter (in_week s e_)
      = c.filter (in_week s e_) := by
  rw [List.filter_filter]
  refine List.filter_congr ?_
  intro a _
  by_cases h1 : s ≤ a.day <;> by_cases h2 : a.day ≤ e_ <;>
    simp [in_week, h1, h2]
  omega

/-- Helper: dict lookup at a day inside the window is unchanged by first
restricting to the window. -/
theorem dict_get_window (c : List Entry) (s e_ d : Int) (h1 : s - 1 ≤ d) (h2 : d ≤ e_) :
    dict_get (c.filter (fun x => decide (s - 1 ≤ x.day) && decide (x.day ≤ e_))) d
      = dict_get c d := by
  unfold dict_get
  rw [← List.filter_head?, ← List.filter_head?, List.filter_reverse, List.filter_reverse]
  have hfe : (c.filter (fun x => decide (s - 1 ≤ x.day) && decide (x.day ≤ e_))).filter
      (fun e => e.day == d) = c.filter (fun e => e.day == d) := by
    rw [List.filter_filter]
    refine List.filter_congr ?_
    intro a _
    by_cases hd : a.day = d
    · simp [hd, h1, h2]
    · simp [hd]
  rw [hfe]

/-- C9: week summaries are local to the one-day-extended window: two record
collections whose restrictions to `[monday - 1, sunday]` coincide produce
identical week summaries, including the gap verdict. -/
theorem week_summary_local (c1 c2 : List Entry) (anchor : Int)
    (h : c1.filter (window_filter anchor) = c2.filter (window_filter anchor)) :
    summarize_week c1 anchor = summarize_week c2 anchor := by
  have hws : (week_bounds anchor).2 = (week_bounds anchor).1 + 6 := rfl
  have h' : c1.filter (fun x => decide ((week_bounds anchor).1 - 1 ≤ x.day) &&
        decide (x.day ≤ (week_bounds anchor).2))
      = c2.filter (fun x => decide ((week_bounds anchor).1 - 1 ≤ x.day) &&
        decide (x.day ≤ (week_bounds anchor).2)) := h
  have hhd : ∀ d : Int, (week_bounds anchor).1 - 1 ≤ d → d ≤ (week_bounds anchor).2 →
      has_drinks c1 d = has_drinks c2 d := by
    intro d h1 h2
    unfold has_drinks
    rw [← dict_get_window c1 (week_bounds anchor).1 (week_bounds anchor).2 d h1 h2,
      ← dict_get_window c2 (week_bounds anchor).1 (week_bounds anchor).2 d h1 h2, h']
  have hsub : c1.filter (in_week (week_bounds anchor).1 (week_bounds anchor).2)
      = c2.filter (in_week (week_bounds anchor).1 (week_bounds anchor).2) := by
    rw [← filter_in_week_window c1 (week_bounds anchor).1 (week_bounds anchor).2,
      ← filter_in_week_window c2 (week_bounds anchor).1 (week_bounds anchor).2, h']
  have hgap : check_gap_rule c1 (week_bounds anchor).1 (week_bounds anchor).2
      = check_gap_rule c2 (week_bounds anchor).1 (week_bounds anchor).2 := by
    unfold check_gap_rule
    have hc1 : has_drinks c1 (week_bounds anchor).1 = has_drinks c2 (week_bounds anchor).1 :=
      hhd _ (by omega) (by omega)
    have hc0 : has_drinks c1 ((week_bounds anchor).1 - 1)
        = has_drinks c2 ((week_bounds anchor).1 - 1) :=
      hhd _ (by omega) (by omega)
    have hfun : (fun i : Nat => has_drinks c1 ((week_bounds anchor).1 + i) &&
          (decide ((week_bounds anchor).1 + (i : Int) + 1 ≤ (week_bounds anchor).2) &&
            has_drinks c1 ((week_bounds anchor).1 + i + 1)))
        = (fun i : Nat => has_drinks c2 ((week_bounds anchor).1 + i) &&
          (decide ((week_bounds anchor).1 + (i : Int) + 1 ≤ (week_bounds anchor).2) &&
            has_drinks c2 ((week_bounds anchor).1 + i + 1))) := by
      funext i
      have hnn : (0 : Int) ≤ (i : Int) := Int.natCast_nonneg i
      by_cases hc : (week_bounds anchor).1 + (i : Int) + 1 ≤ (week_bounds anchor).2
      · rw [hhd ((week_bounds anchor).1 + i) (by omega) (by omega),
          hhd ((week_bounds anchor).1 + i + 1) (by omega) (by omega)]
      · simp [hc]
    rw [hc1, hc0, hfun]
  simp only [summarize_week]
  rw [hsub, hgap]

/-- Witness for C9 at a concrete input: two histories sharing the window
`[-1, 6]` of anchor 3 but with different later records. -/
theorem week_summary_local_witness :
    ([⟨0, some 1, ""⟩, ⟨20, some 3, ""⟩] : List Entry).filter (window_filter 3)
        = ([⟨0, some 1, ""⟩, ⟨50, none, ""⟩] : List Entry).filter (window_filter 3) ∧
    summarize_week [⟨0, some 1, ""⟩, ⟨20, some 3, ""⟩] 3
        = summarize_week [⟨0, some 1, ""⟩, ⟨50, none, ""⟩] 3 :=
  ⟨by decide,
    week_summary_local [⟨0, some 1, ""⟩, ⟨20, some 3, ""⟩] [⟨0, some 1, ""⟩, ⟨50, none, ""⟩] 3
      (by decide)⟩

/-- Helper: the backward compliance loop counts exactly the maximal prefix
of consecutive good weeks, up to the fuel bound. -/
theorem compliance_count_spec (entries : List Entry) (n : Nat) : ∀ ws : Int,
    (∀ i : Nat, i < compliance_count entries n ws →
      week_good entries (ws - 7 * i) = true) ∧
    compliance_count entries n ws ≤ n ∧
    (compliance_count entries n ws < n →
      week_good entries (ws - 7 * (compliance_count entries n ws : Int)) = false) := by
  induction n with
  | zero =>
    intro ws
    refine ⟨?_, le_rfl, ?_⟩
    · intro i hi
      simp [compliance_count] at hi
    · intro hlt
      simp at hlt
  | succ n ih =>
    intro ws
    by_cases hg : week_good entries ws
    · simp only [compliance_count, hg, if_true]
      obtain ⟨ih1, ih2, ih3⟩ := ih (ws - 7)
      refine ⟨?_, by omega, ?_⟩
      · intro i hi
        match i with
        | 0 => simpa using hg
        | j + 1 =>
          have hj := ih1 j (by omega)
          have hcast : ((j + 1 : Nat) : Int) = (j : Int) + 1 := by push_cast; ring
          have harith : ws - 7 * ((j : Int) + 1) = ws - 7 - 7 * j := by ring
          rw [hcast, harith]
          exact hj
      · intro hlt
        have hlt' : compliance_count entries n (ws - 7) < n := by omega
        have h3 := ih3 hlt'
        have hcast : ((1 + compliance_count entries n (ws - 7) : Nat) : Int)
            = 1 + (compliance_count entries n (ws - 7) : Int) := by push_cast; ring
        rw [hcast]
        have harith : ws - 7 * (1 + (compliance_count entries n (ws - 7) : Int))
            = ws - 7 - 7 * (compliance_count entries n (ws - 7) : Int) := by ring
        rw [harith]
        exact h3
    · have hc : compliance_count entries (n + 1) ws = 0 := by
        simp [compliance_count, hg]
      rw [hc]
      refine ⟨fun i hi => by omega, by omega, fun _ => ?_⟩
      simpa using hg

/-- C4: the current weekly-compliance streak is 0 when the in-progress week
has recorded days and is non-compliant; otherwise it is the number of
consecutive good completed weeks counted backward from last week, bounded
by 104, stopping at the first week with no recorded days or non-compliance. -/
theorem current_compliance_spec (entries : List Entry) (today : Int) :
    ((0 < (summarize_week entries (today - weekday today)).recorded_days ∧
        (summarize_week entries (today - weekday today)).rule_ok = false) →
      current_compliance_weeks entries today = 0) ∧
    (¬(0 < (summarize_week entries (today - weekday today)).recorded_days ∧
        (summarize_week entries (today - weekday today)).rule_ok = false) →
      (∀ i : Nat, i < current_compliance_weeks entries today →
        week_good entries (today - weekday today - 7 - 7 * i) = true) ∧
      current_compliance_weeks entries today ≤ 104 ∧
      (current_compliance_weeks entries today < 104 →
        week_good entries
          (today - weekday today - 7 - 7 * (current_compliance_weeks entries today : Int))
          = false)) := by
  constructor
  · intro hpair
    obtain ⟨hrec, hok⟩ := hpair
    unfold current_compliance_weeks
    have hcond : (decide (0 < (summarize_week entries (today - weekday today)).recorded_days) &&
        !(summarize_week entries (today - weekday today)).rule_ok) = true := by
      simp [hrec, hok]
    simp [hcond]
  · intro hbad
    have hcond : (decide (0 < (summarize_week entries (today - weekday today)).recorded_days) &&
        !(summarize_week entries (today - weekday today)).rule_ok) = false := by
      by_contra hc
      rw [Bool.not_eq_false, Bool.and_eq_true] at hc
      exact hbad ⟨by simpa using hc.1, by simpa using hc.2⟩
    have hdef : current_compliance_weeks entries today
        = compliance_count entries 104 (today - weekday today - 7) := by
      unfold current_compliance_weeks
      simp [hcond]
    rw [hdef]
    exact compliance_count_spec entries 104 (today - weekday today - 7)

/-- Witness for C4 at a concrete input: one over-limit record in the
current week breaks the streak to 0. -/
theorem current_compliance_spec_witness :
    (0 < (summarize_week [⟨0, some 5, ""⟩] (3 - weekday 3)).recorded_days ∧
      (summarize_week [⟨0, some 5, ""⟩] (3 - weekday 3)).rule_ok = false) ∧
    current_compliance_weeks [⟨0, some 5, ""⟩] 3 = 0 :=
  ⟨⟨by decide, by decide⟩,
    (current_compliance_spec [⟨0, some 5, ""⟩] 3).1 ⟨by decide, by decide⟩⟩

/-- Helper: the Saturday-stepping loop counts exactly the scanned Saturdays
whose Saturday and following Sunday are both explicitly recorded 0. -/
theorem weekends_loop_spec (entries : List Entry) (n : Nat) : ∀ sat : Int,
    weekends_loop entries n sat = (List.range n).countP
      (fun i : Nat => explicit_zero entries (sat + 7 * i) &&
        explicit_zero entries (sat + 7 * i + 1)) := by
  induction n with
  | zero => intro sat; rfl
  | succ n ih =>
    intro sat
    rw [List.range_succ_eq_map, List.countP_cons, List.countP_map]
    have hcomp : ((fun i : Nat => explicit_zero entries (sat + 7 * i) &&
          explicit_zero entries (sat + 7 * i + 1)) ∘ Nat.succ)
        = (fun i : Nat => explicit_zero entries (sat + 7 + 7 * i) &&
          explicit_zero entries (sat + 7 + 7 * i + 1)) := by
      funext i
      have h1 : sat + 7 * ((Nat.succ i : Nat) : Int) = sat + 7 + 7 * i := by
        push_cast
        ring
      simp only [Function.comp]
      rw [h1]
    have hstep : weekends_loop entries (n + 1) sat
        = (if explicit_zero entries sat && explicit_zero entries (sat + 1) then 1 else 0) +
          weekends_loop entries n (sat + 7) := rfl
    have h0 : sat + 7 * ((0 : Nat) : Int) = sat := by
      push_cast
      ring
    rw [hcomp, ← ih (sat + 7), hstep, h0]
    omega

/-- C6: for a non-empty history, the alcohol-free weekend total equals the
number of scanned Saturdays whose Saturday and following Sunday both carry
an explicit zero record; a Saturday whose Sunday is absent contributes
nothing. -/
theorem alcohol_free_weekends_spec (entries : List Entry) (today : Int)
    (h : entries ≠ []) :
    total_alcohol_free_weekends entries today
      = (List.range (num_saturdays entries today)).countP
          (fun i : Nat => explicit_zero entries (first_saturday entries + 7 * i) &&
            explicit_zero entries (first_saturday entries + 7 * i + 1)) := by
  unfold total_alcohol_free_weekends
  rw [if_neg (by simpa using h)]
  exact weekends_loop_spec entries (num_saturdays entries today) (first_saturday entries)

/-- Witness for C6 at a concrete input: day 5 is a Saturday recorded 0 and
day 6 (Sunday) is absent, so the total is 0. -/
theorem alcohol_free_weekends_spec_witness :
    ([⟨5, some 0, ""⟩] : List Entry) ≠ [] ∧
    total_alcohol_free_weekends [⟨5, some 0, ""⟩] 6 = 0 :=
  ⟨by simp,
    (alcohol_free_weekends_spec [⟨5, some 0, ""⟩] 6 (by simp)).trans (by decide)⟩

/-- Helper: full characterization of the backward over-limit scan with an
accumulator. -/
theorem over_limit_loop_spec (entries : List Entry) (n : Nat) : ∀ (d : Int) (acc : Nat),
    (∀ j : Nat, over_limit_loop entries n d acc = some j →
      ∃ k : Nat, j = acc + k ∧ k < n ∧ over_limit entries (d - k) = true ∧
        ∀ m : Nat, m < k → over_limit entries (d - m) = false) ∧
    (over_limit_loop entries n d acc = none ↔
      ∀ k : Nat, k < n → over_limit entries (d - k) = false) := by
  induction n with
  | zero =>
    intro d acc
    refine ⟨?_, ?_⟩
    · intro j hj
      simp [over_limit_loop] at hj
    · simp [over_limit_loop]
  | succ n ih =>
    intro d acc
    by_cases ho : over_limit entries d = true
    · have hstep : over_limit_loop entries (n + 1) d acc = some acc := by
        simp [over_limit_loop, ho]
      refine ⟨?_, ?_⟩
      · intro j hj
        rw [hstep] at hj
        refine ⟨0, by simpa using hj.symm, by omega, ?_, ?_⟩
        · simpa using ho
        · intro m hm
          omega
      · rw [hstep]
        constructor
        · intro hc
          exact absurd hc (by simp)
        · intro hall
          have := hall 0 (by omega)
          simp at this
          rw [ho] at this
          cases this
    · rw [Bool.not_eq_true] at ho
      have hstep : over_limit_loop entries (n + 1) d acc
          = over_limit_loop entries n (d - 1) (acc + 1) := by
        simp [over_limit_loop, ho]
      obtain ⟨ih1, ih2⟩ := ih (d - 1) (acc + 1)
      refine ⟨?_, ?_⟩
      · intro j hj
        rw [hstep] at hj
        obtain ⟨k, hk1, hk2, hk3, hk4⟩ := ih1 j hj
        refine ⟨k + 1, by omega, by omega, ?_, ?_⟩
        · have harith : d - ((k + 1 : Nat) : Int) = d - 1 - k := by
            push_cast
            ring
          rw [harith]
          exact hk3
        · intro m hm
          match m with
          | 0 => simpa using ho
          | m' + 1 =>
            have := hk4 m' (by omega)
            have harith : d - ((m' + 1 : Nat) : Int) = d - 1 - m' := by
              push_cast
              ring
            rw [harith]
            exact this
      · rw [hstep, ih2]
        constructor
        · intro hall k hk
          match k with
          | 0 => simpa using ho
          | k' + 1 =>
            have := hall k' (by omega)
            have harith : d - ((k' + 1 : Nat) : Int) = d - 1 - k' := by
              push_cast
              ring
            rw [harith]
            exact this
        · intro hall k hk
          have := hall (k + 1) (by omega)
          have harith : d - ((k + 1 : Nat) : Int) = d - 1 - k := by
            push_cast
            ring
          rw [harith] at this
          exact this

/-- C7: the days-since-over-limit scan returns the offset (0 = today) of
the nearest day within 365 days whose recorded count exceeds 3, and
returns none exactly when no such day exists in the window. -/
theorem days_since_over_limit_spec (entries : List Entry) (today : Int) :
    (∀ i : Nat, days_since_over_limit entries today = some i →
      i < 365 ∧ over_limit entries (today - i) = true ∧
        ∀ j : Nat, j < i → over_limit entries (today - j) = false) ∧
    (days_since_over_limit entries today = none ↔
      ∀ i : Nat, i < 365 → over_limit entries (today - i) = false) := by
  obtain ⟨h1, h2⟩ := over_limit_loop_spec entries 365 today 0
  refine ⟨?_, h2⟩
  intro i hi
  obtain ⟨k, hk1, hk2, hk3, hk4⟩ := h1 i hi
  have hik : i = k := by omega
  rw [hik]
  exact ⟨hk2, hk3, hk4⟩

/-- Witness for C7 at a concrete input: a single record of 4 drinks today
gives offset 0. -/
theorem days_since_over_limit_spec_witness :
    days_since_over_limit [⟨5, some 4, ""⟩] 5 = some 0 ∧
    over_limit [⟨5, some 4, ""⟩] (5 - (0 : Nat)) = true :=
  ⟨by decide,
    ((days_since_over_limit_spec [⟨5, some 4, ""⟩] 5).1 0 (by decide)).2.1⟩

/-- Helper: one unfolding step of the longest-abstinence scan. -/
theorem longest_loop_cons (e : Entry) (rest : List Entry) (last : Option Int)
    (temp longest : Nat) :
    longest_loop (e :: rest) last temp longest
      = if effCount e = 0 then
          longest_loop rest (some e.day) (gap_reset last e.day temp + 1)
            (max longest (gap_reset last e.day temp + 1))
        else longest_loop rest (some e.day) 0 longest := rfl

/-- Helper: the scan result is at least the accumulated maximum. -/
theorem longest_loop_ge (l : List Entry) : ∀ (last : Option Int) (temp longest : Nat),
    longest ≤ longest_loop l last temp longest := by
  induction l with
  | nil =>
    intro last temp longest
    exact le_rfl
  | cons e rest ih =>
    intro last temp longest
    rw [longest_loop_cons]
    by_cases he : effCount e = 0
    · rw [if_pos he]
      exact le_trans (le_max_left _ _) (ih _ _ _)
    · rw [if_neg he]
      exact ih _ _ _

/-- Helper: a leading run of day-consecutive all-non-drinking records whose
head follows the previous day closely pushes the scan result to at least
the entering streak plus the run length. -/
theorem longest_loop_run (run : List Entry) : ∀ (rest : List Entry) (d : Int)
    (temp longest : Nat),
    (∀ e ∈ run, effCount e = 0) →
    List.Chain' (fun a b => b.day = a.day + 1) run →
    (∀ x : Entry, run.head? = some x → x.day ≤ d + 1) →
    run ≠ [] →
    temp + run.length ≤ longest_loop (run ++ rest) (some d) temp longest := by
  induction run with
  | nil =>
    intro rest d temp longest _ _ _ hne
    exact absurd rfl hne
  | cons e run' ih =>
    intro rest d temp longest hz hchain hhead _
    have he0 : effCount e = 0 := hz e (List.mem_cons_self e run')
    have hgr : gap_reset (some d) e.day temp = temp := by
      have hed : e.day ≤ d + 1 := hhead e rfl
      simp only [gap_reset]
      rw [if_neg (by omega)]
    rw [List.cons_append, longest_loop_cons, if_pos he0, hgr]
    cases run' with
    | nil =>
      have hlb := longest_loop_ge rest (some e.day) (temp + 1) (max longest (temp + 1))
      have hmax : temp + 1 ≤ max longest (temp + 1) := le_max_right _ _
      simp only [List.length_cons, List.length_nil, List.nil_append]
      omega
    | cons e2 run'' =>
      rw [List.chain'_cons] at hchain
      have hih := ih rest e.day (temp + 1) (max longest (temp + 1))
        (fun x hx => hz x (List.mem_cons_of_mem e hx))
        hchain.2
        (fun x hx => by
          have : e2 = x := by simpa using hx
          rw [← this]
          omega)
        (by simp)
      simp only [List.length_cons] at hih ⊢
      omega

/-- Helper: a leading non-empty day-consecutive all-non-drinking run pushes
the scan result to at least the run length, whatever the entering state. -/
theorem longest_loop_run_any (run rest : List Entry) (last : Option Int)
    (temp longest : Nat)
    (hz : ∀ e ∈ run, effCount e = 0)
    (hchain : List.Chain' (fun a b => b.day = a.day + 1) run)
    (hne : run ≠ []) :
    run.length ≤ longest_loop (run ++ rest) last temp longest := by
  cases run with
  | nil => exact absurd rfl hne
  | cons e run' =>
    have he0 : effCount e = 0 := hz e (List.mem_cons_self e run')
    rw [List.cons_append, longest_loop_cons, if_pos he0]
    cases run' with
    | nil =>
      have hlb := longest_loop_ge rest (some e.day)
        (gap_reset last e.day temp + 1) (max longest (gap_reset last e.day temp + 1))
      have hmax : gap_reset last e.day temp + 1
          ≤ max longest (gap_reset last e.day temp + 1) := le_max_right _ _
      simp only [List.length_cons, List.length_nil, List.nil_append]
      omega
    | cons e2 run'' =>
      rw [List.chain'_cons] at hchain
      have hih := longest_loop_run (e2 :: run'') rest e.day
        (gap_reset last e.day temp + 1)
        (max longest (gap_reset last e.day temp + 1))
        (fun x hx => hz x (List.mem_cons_of_mem e hx))
        hchain.2
        (fun x hx => by
          have : e2 = x := by simpa using hx
          rw [← this]
          omega)
        (by simp)
      simp only [List.length_cons] at hih ⊢
      omega

/-- Helper: a non-empty day-consecutive all-non-drinking run anywhere in
the scanned list pushes the scan result to at least the run length. -/
theorem longest_loop_run_middle (pre : List Entry) : ∀ (run rest : List Entry)
    (last : Option Int) (temp longest : Nat),
    (∀ e ∈ run, effCount e = 0) →
    List.Chain' (fun a b => b.day = a.day + 1) run →
    run ≠ [] →
    run.length ≤ longest_loop (pre ++ (run ++ rest)) last temp longest := by
  induction pre with
  | nil =>
    intro run rest last temp longest hz hchain hne
    rw [List.nil_append]
    exact longest_loop_run_any run rest last temp longest hz hchain hne
  | cons e pre' ih =>
    intro run rest last temp longest hz hchain hne
    rw [List.cons_append, longest_loop_cons]
    by_cases he : effCount e = 0
    · rw [if_pos he]
      exact ih run rest _ _ _ hz hchain hne
    · rw [if_neg he]
      exact ih run rest _ _ _ hz hchain hne

/-- Helper: in a strictly day-increasing list, a day determines the entry. -/
theorem pairwise_day_unique (l : List Entry)
    (hpw : l.Pairwise (fun a b => a.day < b.day)) :
    ∀ e1 e2 : Entry, e1 ∈ l → e2 ∈ l → e1.day = e2.day → e1 = e2 := by
  induction l with
  | nil =>
    intro e1 e2 h1 h2 _
    cases h1
  | cons e tl ih =>
    intro e1 e2 h1 h2 hd
    rw [List.pairwise_cons] at hpw
    rcases List.mem_cons.mp h1 with he1 | he1 <;> rcases List.mem_cons.mp h2 with he2 | he2
    · rw [he1, he2]
    · exfalso
      have := hpw.1 e2 he2
      rw [he1] at hd
      omega
    · exfalso
      have := hpw.1 e1 he1
      rw [he2] at hd
      omega
    · exact ih hpw.2 e1 e2 he1 he2 hd

/-- Helper: counting an integer day interval splits off its top day. -/
theorem countP_interval_split (lo d : Int) (hlo : lo ≤ d - 1) (l : List Entry) :
    l.countP (fun e => decide (lo < e.day) && decide (e.day ≤ d))
      = l.countP (fun e => decide (lo < e.day) && decide (e.day ≤ d - 1))
        + l.countP (fun e => e.day == d) := by
  induction l with
  | nil => rfl
  | cons e tl ih =>
    rw [List.countP_cons, List.countP_cons, List.countP_cons, ih]
    simp only [Bool.and_eq_true, decide_eq_true_eq, beq_iff_eq]
    split_ifs <;> omega

/-- Helper: a strictly day-increasing list splits as the concatenation of
its below-interval, in-interval and above-interval parts. -/
theorem filter_interval_split (lo hi : Int) (hlohi : lo ≤ hi) (l : List Entry)
    (hpw : l.Pairwise (fun a b => a.day < b.day)) :
    l.filter (fun e => decide (e.day ≤ lo))
      ++ (l.filter (fun e => decide (lo < e.day) && decide (e.day ≤ hi))
        ++ l.filter (fun e => decide (hi < e.day))) = l := by
  induction l with
  | nil => rfl
  | cons e tl ih =>
    rw [List.pairwise_cons] at hpw
    have htl := ih hpw.2
    by_cases h1 : e.day ≤ lo
    · have hnb : ¬ lo < e.day := by omega
      have hnc : ¬ hi < e.day := by omega
      have hA : (e :: tl).filter (fun e => decide (e.day ≤ lo))
          = e :: tl.filter (fun e => decide (e.day ≤ lo)) := by
        simp [List.filter_cons, h1]
      have hB : (e :: tl).filter (fun e => decide (lo < e.day) && decide (e.day ≤ hi))
          = tl.filter (fun e => decide (lo < e.day) && decide (e.day ≤ hi)) := by
        simp [List.filter_cons, hnb]
      have hC : (e :: tl).filter (fun e => decide (hi < e.day))
          = tl.filter (fun e => decide (hi < e.day)) := by
        simp [List.filter_cons, hnc]
      rw [hA, hB, hC, List.cons_append, htl]
    · have hAe : (e :: tl).filter (fun e => decide (e.day ≤ lo))
          = tl.filter (fun e => decide (e.day ≤ lo)) := by
        simp [List.filter_cons, h1]
      have hAnil : tl.filter (fun e => decide (e.day ≤ lo)) = [] := by
        rw [List.filter_eq_nil_iff]
        intro x hx
        have hlt := hpw.1 x hx
        simp only [decide_eq_true_eq]
        omega
      by_cases h2 : e.day ≤ hi
      · have hlo' : lo < e.day := by omega
        have hnc : ¬ hi < e.day := by omega
        have hB : (e :: tl).filter (fun e => decide (lo < e.day) && decide (e.day ≤ hi))
            = e :: tl.filter (fun e => decide (lo < e.day) && decide (e.day ≤ hi)) := by
          simp [List.filter_cons, hlo', h2]
        have hC : (e :: tl).filter (fun e => decide (hi < e.day))
            = tl.filter (fun e => decide (hi < e.day)) := by
          simp [List.filter_cons, hnc]
        rw [hAnil, List.nil_append] at htl
        rw [hAe, hAnil, List.nil_append, hB, hC, List.cons_append, htl]
      · have hcc : hi < e.day := by omega
        have hBe : (e :: tl).filter (fun e => decide (lo < e.day) && decide (e.day ≤ hi))
            = tl.filter (fun e => decide (lo < e.day) && decide (e.day ≤ hi)) := by
          simp [List.filter_cons, h2]
        have hBnil : tl.filter (fun e => decide (lo < e.day) && decide (e.day ≤ hi)) = [] := by
          rw [List.filter_eq_nil_iff]
          intro x hx
          have hlt := hpw.1 x hx
          simp only [Bool.and_eq_true, decide_eq_true_eq, not_and]
          intro _
          omega
        have hC : (e :: tl).filter (fun e => decide (hi < e.day))
            = e :: tl.filter (fun e => decide (hi < e.day)) := by
          simp [List.filter_cons, hcc]
        have hCself : tl.filter (fun e => decide (hi < e.day)) = tl := by
          rw [List.filter_eq_self]
          intro x hx
          have hlt := hpw.1 x hx
          simp only [decide_eq_true_eq]
          omega
        rw [hAe, hAnil, List.nil_append, hBe, hBnil, List.nil_append, hC, hCself]

/-- Helper: the backward walk of the current-abstinence streak counts at
most the number of entries in some interval `(lo, d]` whose entries are all
non-drinking. -/
theorem count_back_run (entries : List Entry)
    (hpw : entries.Pairwise (fun a b => a.day < b.day)) (n : Nat) : ∀ d : Int,
    ∃ lo : Int, lo ≤ d ∧
      (∀ e ∈ entries, lo < e.day → e.day ≤ d → effCount e = 0) ∧
      count_back entries n d ≤
        entries.countP (fun e => decide (lo < e.day) && decide (e.day ≤ d)) := by
  induction n with
  | zero =>
    intro d
    refine ⟨d, le_rfl, ?_, ?_⟩
    · intro e _ hgt hle
      omega
    · exact Nat.zero_le _
  | succ n ihn =>
    intro d
    obtain ⟨lo, hlo, hzero, hcount⟩ := ihn (d - 1)
    have hmono : entries.countP (fun e => decide (lo < e.day) && decide (e.day ≤ d - 1))
        ≤ entries.countP (fun e => decide (lo < e.day) && decide (e.day ≤ d)) := by
      refine List.countP_mono_left ?_
      intro x _ hx
      simp only [Bool.and_eq_true, decide_eq_true_eq] at hx ⊢
      omega
    cases hfind : find_entry entries d with
    | none =>
      have hnone : ∀ e ∈ entries, e.day ≠ d := by
        intro e he
        have := List.find?_eq_none.mp hfind e he
        simpa using this
      refine ⟨lo, by omega, ?_, ?_⟩
      · intro e he hgt hle
        by_cases hed : e.day = d
        · exact absurd hed (hnone e he)
        · exact hzero e he hgt (by omega)
      · have hstep : count_back entries (n + 1) d = count_back entries n (d - 1) := by
          simp [count_back, hfind]
        rw [hstep]
        exact le_trans hcount hmono
    | some e' =>
      have he'm : e' ∈ entries := List.mem_of_find?_eq_some hfind
      have he'd : e'.day = d := by
        have := List.find?_some hfind
        simpa using this
      cases hc : e'.count with
      | none =>
        refine ⟨lo, by omega, ?_, ?_⟩
        · intro e he hgt hle
          by_cases hed : e.day = d
          · have hee : e = e' := pairwise_day_unique entries hpw e e' he he'm (by omega)
            rw [hee]
            simp [effCount, hc]
          · exact hzero e he hgt (by omega)
        · have hstep : count_back entries (n + 1) d = count_back entries n (d - 1) := by
            simp [count_back, hfind, hc]
          rw [hstep]
          exact le_trans hcount hmono
      | some c =>
        by_cases hpos : 0 < c
        · refine ⟨d, le_rfl, ?_, ?_⟩
          · intro e _ hgt hle
            omega
          · have hstep : count_back entries (n + 1) d = 0 := by
              simp [count_back, hfind, hc, hpos]
            rw [hstep]
            exact Nat.zero_le _
        · have hc0 : c = 0 := by omega
          refine ⟨lo, by omega, ?_, ?_⟩
          · intro e he hgt hle
            by_cases hed : e.day = d
            · have hee : e = e' := pairwise_day_unique entries hpw e e' he he'm (by omega)
              rw [hee]
              simp [effCount, hc, hc0]
            · exact hzero e he hgt (by omega)
          · have hstep : count_back entries (n + 1) d
                = 1 + count_back entries n (d - 1) := by
              simp [count_back, hfind, hc, hpos]
            rw [hstep]
            have hsplit := countP_interval_split lo d (by omega) entries
            have hone : 0 < entries.countP (fun e => e.day == d) := by
              rw [List.countP_pos_iff]
              exact ⟨e', he'm, by simp [he'd]⟩
            omega

/-- Helper: over a gap-free (day-consecutive) history the current
abstinence streak never exceeds the longest abstinence streak. -/
theorem current_le_longest (entries : List Entry) (today : Int)
    (h : List.Chain' (fun a b => b.day = a.day + 1) entries) :
    current_abstinence entries today ≤ longest_abstinence entries := by
  have hlt : List.Chain' (fun a b => a.day < b.day) entries := by
    refine List.Chain'.imp ?_ h
    intro a b hab
    omega
  have hpw : entries.Pairwise (fun a b => a.day < b.day) :=
    (@List.chain'_iff_pairwise _ _ ⟨fun a b c h1 h2 => by omega⟩ entries).mp hlt
  have hsort : sort_by_day entries = entries := by
    refine List.mergeSort_of_sorted ?_
    refine hpw.imp ?_
    intro a b hab
    simp only [decide_eq_true_eq]
    omega
  have hlabs : longest_abstinence entries = longest_loop entries none 0 0 := by
    unfold longest_abstinence
    rw [hsort]
  have hmain : count_back entries 365 (today - 1) ≤ longest_loop entries none 0 0 := by
    obtain ⟨lo, hlo, hzero, hcount⟩ := count_back_run entries hpw 365 (today - 1)
    by_cases hcb : count_back entries 365 (today - 1) = 0
    · rw [hcb]
      exact Nat.zero_le _
    · have hrunlen : count_back entries 365 (today - 1)
          ≤ (entries.filter (fun e => decide (lo < e.day) &&
              decide (e.day ≤ today - 1))).length := by
        rw [← List.countP_eq_length_filter]
        exact hcount
      have hrne : entries.filter (fun e => decide (lo < e.day) &&
          decide (e.day ≤ today - 1)) ≠ [] := by
        intro hemp
        rw [hemp] at hrunlen
        simp at hrunlen
        omega
      have hrz : ∀ e ∈ entries.filter (fun e => decide (lo < e.day) &&
          decide (e.day ≤ today - 1)), effCount e = 0 := by
        intro e he
        rw [List.mem_filter] at he
        obtain ⟨hem, hcond⟩ := he
        simp only [Bool.and_eq_true, decide_eq_true_eq] at hcond
        exact hzero e hem hcond.1 hcond.2
      have hsplit := filter_interval_split lo (today - 1) (by omega) entries hpw
      have h1 : List.Chain' (fun a b => b.day = a.day + 1)
          (entries.filter (fun e => decide (e.day ≤ lo))
            ++ (entries.filter (fun e => decide (lo < e.day) && decide (e.day ≤ today - 1))
              ++ entries.filter (fun e => decide (today - 1 < e.day)))) := by
        rw [hsplit]
        exact h
      have h2 := (List.chain'_append.mp h1).2.1
      have hchainrun := (List.chain'_append.mp h2).1
      have hlow := longest_loop_run_middle
        (entries.filter (fun e => decide (e.day ≤ lo)))
        (entries.filter (fun e => decide (lo < e.day) && decide (e.day ≤ today - 1)))
        (entries.filter (fun e => decide (today - 1 < e.day)))
        none 0 0 hrz hchainrun hrne
      rw [hsplit] at hlow
      omega
  have hcur : current_abstinence entries today ≤ count_back entries 365 (today - 1) := by
    cases hfind : find_entry entries today with
    | none => simp [current_abstinence, hfind]
    | some e =>
      cases hcnt : e.count with
      | none => simp [current_abstinence, hfind, hcnt]
      | some c =>
        by_cases hp : 0 < c
        · simp [current_abstinence, hfind, hcnt, hp]
        · simp [current_abstinence, hfind, hcnt, hp]
  calc current_abstinence entries today
      ≤ count_back entries 365 (today - 1) := hcur
    _ ≤ longest_loop entries none 0 0 := hmain
    _ = longest_abstinence entries := hlabs.symm

/-- C2 (amended): for a history whose records cover consecutive calendar
days with no gaps, the longest abstinence streak dominates the current one;
the unamended claim fails on histories with day gaps (see the
counterexample), because the longest scan resets on gaps while the current
walk skips absent days without resetting. -/
theorem streak_monotonicity_gapfree (entries : List Entry) (today : Int)
    (h : List.Chain' (fun a b => b.day = a.day + 1) entries) :
    (calculate_streaks entries today).current_abstinence
      ≤ (calculate_streaks entries today).longest_abstinence := by
  cases entries with
  | nil => exact le_rfl
  | cons e es =>
    have h1 : (calculate_streaks (e :: es) today).current_abstinence
        = current_abstinence (e :: es) today := rfl
    have h2 : (calculate_streaks (e :: es) today).longest_abstinence
        = longest_abstinence (e :: es) := rfl
    rw [h1, h2]
    exact current_le_longest (e :: es) today h

/-- Witness for the amended C2 at a concrete input: two consecutive
recorded zero days. -/
theorem streak_monotonicity_gapfree_witness :
    List.Chain' (fun a b => b.day = a.day + 1)
      ([⟨0, some 0, ""⟩, ⟨1, some 0, ""⟩] : List Entry) ∧
    (calculate_streaks [⟨0, some 0, ""⟩, ⟨1, some 0, ""⟩] 2).current_abstinence
      ≤ (calculate_streaks [⟨0, some 0, ""⟩, ⟨1, some 0, ""⟩] 2).longest_abstinence :=
  ⟨by simp [List.chain'_pair],
    streak_monotonicity_gapfree [⟨0, some 0, ""⟩, ⟨1, some 0, ""⟩] 2
      (by simp [List.chain'_pair])⟩
